import Mathlib

/-!
Shallow embedding of the Mergington High School activities API
(`src/app.py`): the in-memory `activities` and `activity_documents`
dictionaries, the enrollment handlers, document upload and verification,
and the two sorted-view endpoints.

Modelling conventions:
* Python dicts preserve insertion order and have unique keys; both are
  modelled as insertion-ordered association lists, with `dictGet` for
  lookup and `dictSet` for the in-place mutation of the record object
  obtained from the dict.
* A handler that raises `HTTPException` is modelled as returning
  `Except.error`; since the embedding is functional, a failing call
  returns no new store, which matches the source: every `raise` happens
  before any mutation, so a failed request leaves the store unchanged.
* The JSON confirmation messages of the mutating handlers are not
  modelled; only the state change and the error outcome are.
* Python's float division in the average score is modelled exactly over
  `ℚ`; Python's stable `list.sort(key=..., reverse=...)` is modelled as a
  stable insertion sort over the flipped-or-not key comparison
  (`pySortKey`), which has the same ordering and the same tie behaviour:
  ties keep their original relative order in both directions.
-/

namespace Mergington

/-- One activity record, as stored in the in-memory `activities` dict. -/
structure Activity where
  description : String
  schedule : String
  max_participants : Nat
  participants : List String
  deriving DecidableEq

/-- One uploaded document record (`upload_document` stores only metadata,
never file contents). -/
structure Document where
  email : String
  filename : String
  content_type : String
  score : Int
  verified : Bool
  deriving DecidableEq

/-- The whole in-memory state: the `activities` dict and the
`activity_documents` dict of `src/app.py`, each as an insertion-ordered
association list. -/
structure Store where
  activities : List (String × Activity)
  activity_documents : List (String × List Document)
  deriving DecidableEq

/-- Error kinds raised by the handlers: `notFound` is HTTP 404,
`conflict` is HTTP 400. -/
inductive Err where
  | notFound
  | conflict
  deriving DecidableEq

/-- Python dict lookup (`d.get(k)`, `k in d`, `d[k]`) over the
insertion-ordered association list. -/
def dictGet {α : Type} (l : List (String × α)) (k : String) : Option α :=
  match l with
  | [] => none
  | (k₂, v) :: t => if k₂ = k then some v else dictGet t k

/-- In-place replacement of the value stored at key `k`: Python mutates
the record object obtained from the dict, leaving every other entry and
the key order untouched. -/
def dictSet {α : Type} (l : List (String × α)) (k : String) (v : α) : List (String × α) :=
  match l with
  | [] => []
  | (k₂, v₂) :: t => if k₂ = k then (k, v) :: dictSet t k v else (k₂, v₂) :: dictSet t k v

/-- Python `list.remove(x)`: delete the first occurrence of `x`. -/
def removeFirst : List String → String → List String
  | [], _ => []
  | x :: t, e => if x = e then t else x :: removeFirst t e

/-- Handler `signup_for_activity` (app.py lines 95-114): 404 if the
activity is absent, 400 if the email is already signed up, otherwise
append the email to the end of the participant list. `max_participants`
is never consulted. -/
def signup (s : Store) (activity_name email : String) : Except Err Store :=
  match dictGet s.activities activity_name with
  | none => .error .notFound
  | some activity =>
    if email ∈ activity.participants then .error .conflict
    else
      let activity₂ := { activity with participants := activity.participants ++ [email] }
      .ok { s with activities := dictSet s.activities activity_name activity₂ }

/-- Handler `unregister_from_activity` (app.py lines 117-136): 404 if the
activity is absent, 400 if the email is not signed up, otherwise
`participants.remove(email)`. -/
def unregister (s : Store) (activity_name email : String) : Except Err Store :=
  match dictGet s.activities activity_name with
  | none => .error .notFound
  | some activity =>
    if email ∈ activity.participants then
      let activity₂ := { activity with participants := removeFirst activity.participants email }
      .ok { s with activities := dictSet s.activities activity_name activity₂ }
    else .error .conflict

/-- Append `d` to the document list stored at key `k` (in-place list
mutation through the dict). -/
def appendAt (l : List (String × List Document)) (k : String) (d : Document) :
    List (String × List Document) :=
  match l with
  | [] => []
  | (k₂, ds) :: t => if k₂ = k then (k₂, ds ++ [d]) :: appendAt t k d
    else (k₂, ds) :: appendAt t k d

/-- `activity_documents.setdefault(activity_name, []).append(doc)`: append
to an existing entry, or add a fresh `[doc]` entry at the end of the dict. -/
def appendDoc (l : List (String × List Document)) (k : String) (d : Document) :
    List (String × List Document) :=
  if (dictGet l k).isSome then appendAt l k d
  else l ++ [(k, [d])]

/-- Handler `upload_document` (app.py lines 139-153): 404 if the activity
is absent, otherwise record the metadata with `verified = false`. -/
def upload_document (s : Store) (activity_name email filename content_type : String)
    (score : Int) : Except Err Store :=
  if (dictGet s.activities activity_name).isSome then
    let doc : Document :=
      { email := email, filename := filename, content_type := content_type,
        score := score, verified := false }
    .ok { s with activity_documents := appendDoc s.activity_documents activity_name doc }
  else .error .notFound

/-- The scan of `verify_document`: walk the document list in insertion
order and set `verified := true` on the first record whose email and
filename both match; `none` when no record matches. -/
def markFirst : List Document → String → String → Option (List Document)
  | [], _, _ => none
  | d :: t, email, filename =>
    if d.email = email ∧ d.filename = filename then some ({ d with verified := true } :: t)
    else (markFirst t email filename).map (fun t₂ => d :: t₂)

/-- Handler `verify_document` (app.py lines 164-172): scan
`activity_documents.get(activity_name, [])` for the first (email,
filename) match and mark it verified; 404 if none matches. The handler
never consults the `activities` dict. -/
def verify_document (s : Store) (activity_name email filename : String) : Except Err Store :=
  match markFirst ((dictGet s.activity_documents activity_name).getD []) email filename with
  | none => .error .notFound
  | some docs₂ =>
    .ok { s with activity_documents := dictSet s.activity_documents activity_name docs₂ }

/-- `avg_score` inside `get_sorted_activities` (app.py lines 178-181):
the mean of the scores of the verified documents of the activity, and `0`
when there are none (including when the activity has no document entry at
all). Python's float division is modelled exactly over `ℚ`. -/
def avg_score (s : Store) (activity_name : String) : ℚ :=
  let docs := (dictGet s.activity_documents activity_name).getD []
  let scores := (docs.filter (fun d => d.verified)).map (fun d => d.score)
  if scores = [] then 0 else ((scores.sum : ℤ) : ℚ) / (scores.length : ℚ)

/-- The key comparison used by Python's `list.sort(key, reverse)`:
ascending on the key when `reverse` is `false`, flipped when `true`. -/
def keyRel {α κ : Type} [LinearOrder κ] (key : α → κ) : Bool → α → α → Prop
  | false, a, b => key a ≤ key b
  | true, a, b => key b ≤ key a

instance keyRelDecidable {α κ : Type} [LinearOrder κ] (key : α → κ) :
    (rev : Bool) → DecidableRel (keyRel key rev)
  | false, a, b => inferInstanceAs (Decidable (key a ≤ key b))
  | true, a, b => inferInstanceAs (Decidable (key b ≤ key a))

/-- Python's `list.sort(key=key, reverse=rev)`: a stable sort by the
flipped-or-not key comparison. -/
def pySortKey {α κ : Type} [LinearOrder κ] (key : α → κ) (rev : Bool) (l : List α) : List α :=
  List.insertionSort (keyRel key rev) l

/-- Handler `get_sorted_activities` (app.py lines 175-189). The returned
JSON objects `{"name": k, **v}` are modelled as the (name, record) pairs.
When `sort_by` is none of the three enumerated values, the handler body
hits no branch and returns the dict in insertion order: FastAPI's
`Query("name", enum=[...])` puts `enum` in the documentation schema only
and does not validate, so such requests succeed. -/
def get_sorted_activities (s : Store) (sort_by : String) (descending : Bool) :
    List (String × Activity) :=
  if sort_by = "name" then pySortKey (fun x => x.1) descending s.activities
  else if sort_by = "participants" then
    pySortKey (fun x => x.2.participants.length) descending s.activities
  else if sort_by = "score" then pySortKey (fun x => avg_score s x.1) descending s.activities
  else s.activities

/-- One row of the sorted-participants view: the participant email and
the score of their first verified document, or `none`. -/
structure PInfo where
  email : String
  score : Option Int
  deriving DecidableEq

/-- The inner loop of `get_sorted_participants` (app.py lines 201-206):
the score of the first document in insertion order whose email matches
and which is verified, else `none`. -/
def firstVerifiedScore : List Document → String → Option Int
  | [], _ => none
  | d :: t, email =>
    if d.email = email ∧ d.verified then some d.score else firstVerifiedScore t email

/-- The `info` list built by `get_sorted_participants` before sorting:
one row per participant, in roster order. -/
def participant_info (s : Store) (activity_name : String) (a : Activity) : List PInfo :=
  a.participants.map (fun email =>
    { email := email
      score := firstVerifiedScore ((dictGet s.activity_documents activity_name).getD []) email })

/-- Handler `get_sorted_participants` (app.py lines 192-212): 404 if the
activity is absent; otherwise the `info` rows, sorted by email for
`sort_by = "name"`, by the score with `none` read as `0` for
`sort_by = "score"`, and unsorted for any other `sort_by` (the `enum`
annotation of `Query` does not validate). -/
def get_sorted_participants (s : Store) (activity_name sort_by : String) (descending : Bool) :
    Except Err (List PInfo) :=
  match dictGet s.activities activity_name with
  | none => .error .notFound
  | some a =>
    let info := participant_info s activity_name a
    .ok (if sort_by = "name" then pySortKey (fun x => x.email) descending info
      else if sort_by = "score" then pySortKey (fun x => x.score.getD 0) descending info
      else info)

/-- The seed data of `activities` (app.py lines 24-79). -/
def seedActivities : List (String × Activity) :=
  [("Chess Club",
    { description := "Learn strategies and compete in chess tournaments"
      schedule := "Fridays, 3:30 PM - 5:00 PM"
      max_participants := 12
      participants := ["michael@mergington.edu", "daniel@mergington.edu"] }),
   ("Programming Class",
    { description := "Learn programming fundamentals and build software projects"
      schedule := "Tuesdays and Thursdays, 3:30 PM - 4:30 PM"
      max_participants := 20
      participants := ["emma@mergington.edu", "sophia@mergington.edu"] }),
   ("Gym Class",
    { description := "Physical education and sports activities"
      schedule := "Mondays, Wednesdays, Fridays, 2:00 PM - 3:00 PM"
      max_participants := 30
      participants := ["john@mergington.edu", "olivia@mergington.edu"] }),
   ("Soccer Team",
    { description := "Join the school soccer team and compete in matches"
      schedule := "Tuesdays and Thursdays, 4:00 PM - 5:30 PM"
      max_participants := 22
      participants := ["liam@mergington.edu", "noah@mergington.edu"] }),
   ("Basketball Team",
    { description := "Practice and play basketball with the school team"
      schedule := "Wednesdays and Fridays, 3:30 PM - 5:00 PM"
      max_participants := 15
      participants := ["ava@mergington.edu", "mia@mergington.edu"] }),
   ("Art Club",
    { description := "Explore your creativity through painting and drawing"
      schedule := "Thursdays, 3:30 PM - 5:00 PM"
      max_participants := 15
      participants := ["amelia@mergington.edu", "harper@mergington.edu"] }),
   ("Drama Club",
    { description := "Act, direct, and produce plays and performances"
      schedule := "Mondays and Wednesdays, 4:00 PM - 5:30 PM"
      max_participants := 20
      participants := ["ella@mergington.edu", "scarlett@mergington.edu"] }),
   ("Math Club",
    { description := "Solve challenging problems and participate in math competitions"
      schedule := "Tuesdays, 3:30 PM - 4:30 PM"
      max_participants := 10
      participants := ["james@mergington.edu", "benjamin@mergington.edu"] }),
   ("Debate Team",
    { description := "Develop public speaking and argumentation skills"
      schedule := "Fridays, 4:00 PM - 5:30 PM"
      max_participants := 12
      participants := ["charlotte@mergington.edu", "henry@mergington.edu"] })]

/-- The state at process start: the seeded activities and the empty
`activity_documents` dict. -/
def seedStore : Store :=
  { activities := seedActivities, activity_documents := [] }

/-- The uniqueness invariant: no email appears twice in any single
activity's participant sequence. -/
def NoDupStore (s : Store) : Prop :=
  ∀ p ∈ s.activities, p.2.participants.Nodup

/-- The states reachable from the seed data by the exposed mutating
operations. The read/query handlers (`get_activities`,
`get_activity_documents`, `get_sorted_activities`,
`get_sorted_participants`) return values without producing a new store,
and a failing mutator returns only an error, so neither adds a step. -/
inductive Reachable : Store → Prop where
  | seed : Reachable seedStore
  | signup_step (s s₂ : Store) (n e : String) :
      Reachable s → signup s n e = .ok s₂ → Reachable s₂
  | unregister_step (s s₂ : Store) (n e : String) :
      Reachable s → unregister s n e = .ok s₂ → Reachable s₂
  | upload_step (s s₂ : Store) (n e f c : String) (sc : Int) :
      Reachable s → upload_document s n e f c sc = .ok s₂ → Reachable s₂
  | verify_step (s s₂ : Store) (n e f : String) :
      Reachable s → verify_document s n e f = .ok s₂ → Reachable s₂

/-! Small concrete states used to instantiate the general theorems. -/

/-- A document of `a@x` named `f1`, not yet verified. -/
def wDoc1 : Document :=
  { email := "a@x", filename := "f1", content_type := "ct", score := 7, verified := false }

/-- A second document with the same (email, filename) pair as `wDoc1`. -/
def wDoc2 : Document :=
  { email := "a@x", filename := "f1", content_type := "ct", score := 9, verified := false }

/-- A document of the other participant. -/
def wDoc3 : Document :=
  { email := "b@x", filename := "g2", content_type := "ct", score := 5, verified := false }

/-- An activity that is exactly at capacity: two participants, capacity two. -/
def wAct : Activity :=
  { description := "d", schedule := "t", max_participants := 2,
    participants := ["a@x", "b@x"] }

/-- A store with one full activity and three unverified documents. -/
def wStore : Store :=
  { activities := [("A", wAct)], activity_documents := [("A", [wDoc1, wDoc2, wDoc3])] }

/-- `wStore` after `verify_document wStore "A" "a@x" "f1"`: only the first
of the two (a@x, f1) records is marked. -/
def wStoreV : Store :=
  { activities := [("A", wAct)],
    activity_documents := [("A", [{ wDoc1 with verified := true }, wDoc2, wDoc3])] }

instance keyRelTotal {α κ : Type} [LinearOrder κ] (key : α → κ) (rev : Bool) :
    IsTotal α (keyRel key rev) where
  total a b := by
    cases rev
    · exact le_total (key a) (key b)
    · exact le_total (key b) (key a)

instance keyRelTrans {α κ : Type} [LinearOrder κ] (key : α → κ) (rev : Bool) :
    IsTrans α (keyRel key rev) where
  trans a b c h₁ h₂ := by
    cases rev
    · exact @le_trans κ _ _ _ _ h₁ h₂
    · exact @le_trans κ _ _ _ _ h₂ h₁

/-! Basic lemmas about the association-list dictionary operations. -/

theorem dictGet_mem {α : Type} {l : List (String × α)} {k : String} {v : α}
    (h : dictGet l k = some v) : (k, v) ∈ l := by
  induction l with
  | nil => simp [dictGet] at h
  | cons p t ih =>
    obtain ⟨k₂, v₂⟩ := p
    rw [dictGet] at h
    by_cases hk : k₂ = k
    · rw [if_pos hk] at h
      subst hk
      injection h with h
      subst h
      exact List.mem_cons_self _ _
    · rw [if_neg hk] at h
      exact List.mem_cons_of_mem _ (ih h)

theorem dictGet_dictSet_self {α : Type} {l : List (String × α)} {k : String} {v₀ : α} (v : α)
    (h : dictGet l k = some v₀) : dictGet (dictSet l k v) k = some v := by
  induction l with
  | nil => simp [dictGet] at h
  | cons p t ih =>
    obtain ⟨k₂, v₂⟩ := p
    rw [dictGet] at h
    by_cases hk : k₂ = k
    · rw [dictSet, if_pos hk, dictGet, if_pos rfl]
    · rw [if_neg hk] at h
      rw [dictSet, if_neg hk, dictGet, if_neg hk]
      exact ih h

theorem dictGet_dictSet_ne {α : Type} (l : List (String × α)) (k k₂ : String) (v : α)
    (h : k₂ ≠ k) : dictGet (dictSet l k v) k₂ = dictGet l k₂ := by
  induction l with
  | nil => simp [dictSet, dictGet]
  | cons p t ih =>
    obtain ⟨k₃, v₃⟩ := p
    by_cases hk : k₃ = k
    · rw [dictSet, if_pos hk, dictGet, if_neg (Ne.symm h), dictGet, hk, if_neg (Ne.symm h)]
      exact ih
    · rw [dictSet, if_neg hk, dictGet, dictGet]
      by_cases hk₂ : k₃ = k₂
      · rw [if_pos hk₂, if_pos hk₂]
      · rw [if_neg hk₂, if_neg hk₂]
        exact ih

theorem dictSet_dictSet {α : Type} (l : List (String × α)) (k : String) (v : α) :
    dictSet (dictSet l k v) k v = dictSet l k v := by
  induction l with
  | nil => rfl
  | cons p t ih =>
    obtain ⟨k₂, v₂⟩ := p
    by_cases hk : k₂ = k
    · rw [dictSet, if_pos hk, dictSet, if_pos rfl, ih]
    · rw [dictSet, if_neg hk, dictSet, if_neg hk, ih]

theorem mem_dictSet {α : Type} {l : List (String × α)} {k : String} {v : α} {p : String × α}
    (h : p ∈ dictSet l k v) : p ∈ l ∨ p = (k, v) := by
  induction l with
  | nil => simp [dictSet] at h
  | cons q t ih =>
    obtain ⟨k₂, v₂⟩ := q
    by_cases hk : k₂ = k
    · rw [dictSet, if_pos hk] at h
      rcases List.mem_cons.mp h with h₂ | h₂
      · exact Or.inr h₂
      · rcases ih h₂ with h₃ | h₃
        · exact Or.inl (List.mem_cons_of_mem _ h₃)
        · exact Or.inr h₃
    · rw [dictSet, if_neg hk] at h
      rcases List.mem_cons.mp h with h₂ | h₂
      · exact Or.inl (h₂ ▸ List.mem_cons_self _ _)
      · rcases ih h₂ with h₃ | h₃
        · exact Or.inl (List.mem_cons_of_mem _ h₃)
        · exact Or.inr h₃

/-! Lemmas about `removeFirst` (Python `list.remove`). -/

theorem removeFirst_decomp {l : List String} {e : String} (h : e ∈ l) :
    ∃ l₁ l₂, l = l₁ ++ e :: l₂ ∧ e ∉ l₁ ∧ removeFirst l e = l₁ ++ l₂ := by
  induction l with
  | nil => simp at h
  | cons x t ih =>
    by_cases hx : x = e
    · subst hx
      exact ⟨[], t, rfl, by simp, by simp [removeFirst]⟩
    · have he : e ∈ t := by
        rcases List.mem_cons.mp h with h₁ | h₁
        · exact absurd h₁.symm hx
        · exact h₁
      obtain ⟨l₁, l₂, hdec, hnot, hrem⟩ := ih he
      refine ⟨x :: l₁, l₂, by simp [hdec], ?_, ?_⟩
      · intro hmem
        rcases List.mem_cons.mp hmem with h₂ | h₂
        · exact hx h₂.symm
        · exact hnot h₂
      · simp [removeFirst, hx, hrem]

theorem removeFirst_sublist (l : List String) (e : String) :
    List.Sublist (removeFirst l e) l := by
  induction l with
  | nil => simp [removeFirst]
  | cons x t ih =>
    by_cases hx : x = e
    · simp [removeFirst, hx]
    · simpa [removeFirst, hx] using List.Sublist.cons₂ x ih

/-! Lemmas about `markFirst` (the scan of `verify_document`). -/

theorem markFirst_eq_none {email filename : String} :
    ∀ {docs : List Document}, markFirst docs email filename = none ↔
      ∀ d ∈ docs, ¬(d.email = email ∧ d.filename = filename)
  | [] => by simp [markFirst]
  | d :: t => by
    by_cases h : d.email = email ∧ d.filename = filename
    · simp [markFirst, h]
    · rw [markFirst, if_neg h, Option.map_eq_none', @markFirst_eq_none email filename t]
      constructor
      · intro ht d₂ hd₂
        rcases List.mem_cons.mp hd₂ with h₂ | h₂
        · subst h₂
          exact h
        · exact ht d₂ h₂
      · intro hall d₂ h₂
        exact hall d₂ (List.mem_cons_of_mem _ h₂)

theorem markFirst_eq_some {email filename : String} :
    ∀ {docs out : List Document}, markFirst docs email filename = some out →
      ∃ l₁ d l₂, docs = l₁ ++ d :: l₂
        ∧ (∀ d₂ ∈ l₁, ¬(d₂.email = email ∧ d₂.filename = filename))
        ∧ d.email = email ∧ d.filename = filename
        ∧ out = l₁ ++ { d with verified := true } :: l₂
  | [], out => by simp [markFirst]
  | d :: t, out => by
    by_cases h : d.email = email ∧ d.filename = filename
    · rw [markFirst, if_pos h]
      intro hout
      injection hout with hout
      exact ⟨[], d, t, rfl, by simp, h.1, h.2, hout.symm⟩
    · rw [markFirst, if_neg h]
      intro hout
      rw [Option.map_eq_some'] at hout
      obtain ⟨t₂, ht₂, hcons⟩ := hout
      obtain ⟨l₁, d₀, l₂, hdec, hnone, he, hf, hout₂⟩ := markFirst_eq_some ht₂
      refine ⟨d :: l₁, d₀, l₂, by simp [hdec], ?_, he, hf, by simp [← hcons, hout₂]⟩
      intro d₂ hd₂
      rcases List.mem_cons.mp hd₂ with h₂ | h₂
      · exact h₂ ▸ h
      · exact hnone d₂ h₂

theorem markFirst_first_match {email filename : String} (l₁ : List Document) (d : Document)
    (l₂ : List Document) (hnone : ∀ d₂ ∈ l₁, ¬(d₂.email = email ∧ d₂.filename = filename))
    (he : d.email = email) (hf : d.filename = filename) :
    markFirst (l₁ ++ d :: l₂) email filename
      = some (l₁ ++ { d with verified := true } :: l₂) := by
  induction l₁ with
  | nil => simp [markFirst, he, hf]
  | cons d₂ t ih =>
    have h₂ : ¬(d₂.email = email ∧ d₂.filename = filename) :=
      hnone d₂ (List.mem_cons_self _ _)
    have ih₂ := ih (fun d₃ h₃ => hnone d₃ (List.mem_cons_of_mem _ h₃))
    simp [markFirst, h₂, ih₂]

/-! Lemmas about `firstVerifiedScore` (the scan of `get_sorted_participants`). -/

theorem firstVerifiedScore_eq_none {email : String} :
    ∀ {docs : List Document}, firstVerifiedScore docs email = none ↔
      ∀ d ∈ docs, d.email = email → d.verified = false
  | [] => by simp [firstVerifiedScore]
  | d :: t => by
    by_cases h : d.email = email ∧ d.verified
    · simp [firstVerifiedScore, h, h.1, h.2]
    · rw [firstVerifiedScore, if_neg h, @firstVerifiedScore_eq_none email t]
      constructor
      · intro ht d₂ hd₂ he
        rcases List.mem_cons.mp hd₂ with h₂ | h₂
        · subst h₂
          cases hv : d₂.verified
          · rfl
          · exact absurd ⟨he, hv⟩ h
        · exact ht d₂ h₂ he
      · intro hall d₂ h₂ he
        exact hall d₂ (List.mem_cons_of_mem _ h₂) he

theorem firstVerifiedScore_eq_some {email : String} :
    ∀ {docs : List Document} {v : Int}, firstVerifiedScore docs email = some v →
      ∃ l₁ d l₂, docs = l₁ ++ d :: l₂
        ∧ d.email = email ∧ d.verified = true ∧ d.score = v
        ∧ ∀ d₂ ∈ l₁, ¬(d₂.email = email ∧ d₂.verified = true)
  | [], v => by simp [firstVerifiedScore]
  | d :: t, v => by
    by_cases h : d.email = email ∧ d.verified
    · rw [firstVerifiedScore, if_pos h]
      intro hv
      injection hv with hv
      exact ⟨[], d, t, rfl, h.1, h.2, hv, by simp⟩
    · rw [firstVerifiedScore, if_neg h]
      intro hv
      obtain ⟨l₁, d₀, l₂, hdec, he, hver, hsc, hnone⟩ := firstVerifiedScore_eq_some hv
      refine ⟨d :: l₁, d₀, l₂, by simp [hdec], he, hver, hsc, ?_⟩
      intro d₂ hd₂
      rcases List.mem_cons.mp hd₂ with h₂ | h₂
      · exact h₂ ▸ h
      · exact hnone d₂ h₂

/-! Lemmas about `pySortKey`, the model of Python's stable
`list.sort(key, reverse)`. -/

theorem keyRel_of_key_eq {α κ : Type} [LinearOrder κ] (key : α → κ) (rev : Bool) {a b : α}
    (h : key a = key b) : keyRel key rev a b := by
  cases rev
  · exact le_of_eq h
  · exact le_of_eq h.symm

theorem pySortKey_perm {α κ : Type} [LinearOrder κ] (key : α → κ) (rev : Bool) (l : List α) :
    List.Perm (pySortKey key rev l) l :=
  List.perm_insertionSort (keyRel key rev) l

theorem pySortKey_sorted {α κ : Type} [LinearOrder κ] (key : α → κ) (rev : Bool) (l : List α) :
    List.Sorted (keyRel key rev) (pySortKey key rev l) :=
  List.sorted_insertionSort (keyRel key rev) l

theorem pySortKey_pairwise {α κ : Type} [LinearOrder κ] (key : α → κ) (rev : Bool) (l : List α) :
    (pySortKey key rev l).Pairwise
      (fun a b => if rev then key b ≤ key a else key a ≤ key b) := by
  have h := pySortKey_sorted key rev l
  cases rev
  · simpa using h
  · simpa using h

theorem orderedInsert_filter {α κ : Type} [LinearOrder κ] [dec : DecidableEq κ]
    (key : α → κ) (rev : Bool) (x : α) (k : κ) :
    ∀ l : List α,
      (List.orderedInsert (keyRel key rev) x l).filter (fun y => @decide (key y = k) (dec (key y) k))
        = (if key x = k then [x] else []) ++ l.filter (fun y => @decide (key y = k) (dec (key y) k))
  | [] => by
    by_cases hx : key x = k
    · simp [hx]
    · simp [hx]
  | y :: t => by
    by_cases hr : keyRel key rev x y
    · rw [List.orderedInsert, if_pos hr]
      by_cases hx : key x = k
      · simp [List.filter_cons, hx]
      · simp [List.filter_cons, hx]
    · rw [List.orderedInsert, if_neg hr]
      have hxy : ¬ key x = key y := fun h₂ => hr (keyRel_of_key_eq key rev h₂)
      rw [List.filter_cons, List.filter_cons, orderedInsert_filter key rev x k t]
      by_cases hy : key y = k
      · have hx : ¬ key x = k := fun h₂ => hxy (h₂.trans hy.symm)
        simp [hy, hx]
      · simp [hy]

theorem pySortKey_filter {α κ : Type} [LinearOrder κ] [dec : DecidableEq κ]
    (key : α → κ) (rev : Bool) (k : κ) :
    ∀ l : List α,
      (pySortKey key rev l).filter (fun y => @decide (key y = k) (dec (key y) k))
        = l.filter (fun y => @decide (key y = k) (dec (key y) k))
  | [] => rfl
  | x :: t => by
    have ih := pySortKey_filter key rev k t
    rw [pySortKey] at ih ⊢
    rw [show List.insertionSort (keyRel key rev) (x :: t)
        = List.orderedInsert (keyRel key rev) x (List.insertionSort (keyRel key rev) t) from rfl]
    rw [orderedInsert_filter key rev x k, ih, List.filter_cons]
    by_cases hx : key x = k
    · simp [hx]
    · simp [hx]

/-- Appending a fresh element keeps a list duplicate-free. -/
theorem nodup_append_singleton {l : List String} {e : String} (hmem : e ∉ l)
    (hnd : l.Nodup) : (l ++ [e]).Nodup := by
  rw [List.nodup_append]
  exact ⟨hnd, List.nodup_singleton e, by simpa [List.disjoint_singleton] using hmem⟩

/-! Branch equations of the two sorted-view handlers at each concrete
`sort_by` value. -/

theorem gsa_name (s : Store) (desc : Bool) :
    get_sorted_activities s "name" desc = pySortKey (fun x => x.1) desc s.activities := rfl

theorem gsa_participants (s : Store) (desc : Bool) :
    get_sorted_activities s "participants" desc
      = pySortKey (fun x => x.2.participants.length) desc s.activities := rfl

theorem gsa_score (s : Store) (desc : Bool) :
    get_sorted_activities s "score" desc
      = pySortKey (fun x => avg_score s x.1) desc s.activities := rfl

theorem gsa_other (s : Store) (sort_by : String) (desc : Bool) (h₁ : sort_by ≠ "name")
    (h₂ : sort_by ≠ "participants") (h₃ : sort_by ≠ "score") :
    get_sorted_activities s sort_by desc = s.activities := by
  rw [get_sorted_activities, if_neg h₁, if_neg h₂, if_neg h₃]

theorem gsp_absent (s : Store) (activity_name sort_by : String) (desc : Bool)
    (h : dictGet s.activities activity_name = none) :
    get_sorted_participants s activity_name sort_by desc = .error .notFound := by
  rw [get_sorted_participants, h]

theorem gsp_name (s : Store) (activity_name : String) (desc : Bool) (a : Activity)
    (h : dictGet s.activities activity_name = some a) :
    get_sorted_participants s activity_name "name" desc
      = .ok (pySortKey (fun x => x.email) desc (participant_info s activity_name a)) := by
  rw [get_sorted_participants, h]
  exact rfl

theorem gsp_score (s : Store) (activity_name : String) (desc : Bool) (a : Activity)
    (h : dictGet s.activities activity_name = some a) :
    get_sorted_participants s activity_name "score" desc
      = .ok (pySortKey (fun x => x.score.getD 0) desc (participant_info s activity_name a)) := by
  rw [get_sorted_participants, h]
  exact rfl

theorem gsp_other (s : Store) (activity_name sort_by : String) (desc : Bool) (a : Activity)
    (h : dictGet s.activities activity_name = some a) (h₁ : sort_by ≠ "name")
    (h₂ : sort_by ≠ "score") :
    get_sorted_participants s activity_name sort_by desc
      = .ok (participant_info s activity_name a) := by
  rw [get_sorted_participants, h]
  show Except.ok (if sort_by = "name" then _ else if sort_by = "score" then _ else _) = _
  rw [if_neg h₁, if_neg h₂]

/-! Preservation of the participant-uniqueness invariant by each mutator. -/

theorem signup_preserves_nodup {s s₂ : Store} {n e : String}
    (h : signup s n e = .ok s₂) (hs : NoDupStore s) : NoDupStore s₂ := by
  cases hd : dictGet s.activities n with
  | none => simp [signup, hd] at h
  | some a =>
    by_cases hmem : e ∈ a.participants
    · simp [signup, hd, hmem] at h
    · simp only [signup, hd, if_neg hmem, Except.ok.injEq] at h
      subst h
      intro p hp
      rcases mem_dictSet hp with h₂ | h₂
      · exact hs p h₂
      · subst h₂
        exact nodup_append_singleton hmem (hs (n, a) (dictGet_mem hd))

theorem unregister_preserves_nodup {s s₂ : Store} {n e : String}
    (h : unregister s n e = .ok s₂) (hs : NoDupStore s) : NoDupStore s₂ := by
  cases hd : dictGet s.activities n with
  | none => simp [unregister, hd] at h
  | some a =>
    by_cases hmem : e ∈ a.participants
    · simp only [unregister, hd, if_pos hmem, Except.ok.injEq] at h
      subst h
      intro p hp
      rcases mem_dictSet hp with h₂ | h₂
      · exact hs p h₂
      · subst h₂
        exact ((hs (n, a) (dictGet_mem hd)).sublist (removeFirst_sublist a.participants e))
    · simp [unregister, hd, hmem] at h

theorem upload_preserves_nodup {s s₂ : Store} {n e f c : String} {sc : Int}
    (h : upload_document s n e f c sc = .ok s₂) (hs : NoDupStore s) : NoDupStore s₂ := by
  by_cases hd : (dictGet s.activities n).isSome
  · simp only [upload_document, if_pos hd, Except.ok.injEq] at h
    subst h
    exact hs
  · simp [upload_document, hd] at h

theorem verify_preserves_nodup {s s₂ : Store} {n e f : String}
    (h : verify_document s n e f = .ok s₂) (hs : NoDupStore s) : NoDupStore s₂ := by
  cases hm : markFirst ((dictGet s.activity_documents n).getD []) e f with
  | none => simp [verify_document, hm] at h
  | some docs₂ =>
    simp only [verify_document, hm, Except.ok.injEq] at h
    subst h
    exact hs

/-- C3: `signup` fails with NotFound when the activity is absent and with
Conflict when the email is already in that activity's participant
sequence (the failing call produces no new store, so the whole store is
unchanged); otherwise it appends the email to the end of the sequence and
succeeds — in particular it succeeds even when the participant count
already equals or exceeds `max_participants`, since capacity is never
consulted: the success branch carries no capacity hypothesis, and the
last conjunct states the over-capacity case explicitly. -/
theorem C3_signup (s : Store) (activity_name email : String) :
    (dictGet s.activities activity_name = none →
      signup s activity_name email = .error .notFound)
    ∧ (∀ a, dictGet s.activities activity_name = some a → email ∈ a.participants →
        signup s activity_name email = .error .conflict)
    ∧ (∀ a, dictGet s.activities activity_name = some a → email ∉ a.participants →
        signup s activity_name email = .ok { s with activities := dictSet s.activities activity_name { a with participants := a.participants ++ [email] } })
    ∧ (∀ a, dictGet s.activities activity_name = some a →
        a.max_participants ≤ a.participants.length → email ∉ a.participants →
        ∃ s₂, signup s activity_name email = .ok s₂) := by
  have h3 : ∀ a, dictGet s.activities activity_name = some a → email ∉ a.participants →
      signup s activity_name email = .ok { s with activities := dictSet s.activities activity_name { a with participants := a.participants ++ [email] } } := by
    intro a ha hmem
    simp [signup, ha, hmem]
  refine ⟨?_, ?_, h3, ?_⟩
  · intro h
    simp [signup, h]
  · intro a ha hmem
    simp [signup, ha, hmem]
  · intro a ha hcap hmem
    exact ⟨_, h3 a ha hmem⟩

/-- C3 witness: on a store whose only activity is exactly at capacity
(2 participants, `max_participants = 2`), signing up a fresh email
succeeds, a duplicate signup fails with Conflict, and an unknown activity
fails with NotFound. -/
theorem C3_signup_witness :
    signup wStore "A" "c@x" = .ok { wStore with activities := dictSet wStore.activities "A" { wAct with participants := wAct.participants ++ ["c@x"] } }
    ∧ signup wStore "A" "a@x" = .error .conflict
    ∧ signup wStore "B" "c@x" = .error .notFound
    ∧ wAct.max_participants ≤ wAct.participants.length
    ∧ ∃ s₂, signup wStore "A" "c@x" = .ok s₂ :=
  ⟨(C3_signup wStore "A" "c@x").2.2.1 wAct (by decide) (by decide),
   (C3_signup wStore "A" "a@x").2.1 wAct (by decide) (by decide),
   (C3_signup wStore "B" "c@x").1 (by decide),
   by decide,
   (C3_signup wStore "A" "c@x").2.2.2 wAct (by decide) (by decide) (by decide)⟩

/-- C4: `unregister` fails with NotFound when the activity is absent and
with Conflict when the email is not in the participant sequence (no new
store is produced, so the store is unchanged); when the email is present
it removes exactly one occurrence — the first — and preserves the
relative order of all remaining participants, every other activity and
the document store being untouched. -/
theorem C4_unregister (s : Store) (activity_name email : String) :
    (dictGet s.activities activity_name = none →
      unregister s activity_name email = .error .notFound)
    ∧ (∀ a, dictGet s.activities activity_name = some a → email ∉ a.participants →
        unregister s activity_name email = .error .conflict)
    ∧ (∀ a, dictGet s.activities activity_name = some a → email ∈ a.participants →
        ∃ l₁ l₂, a.participants = l₁ ++ email :: l₂ ∧ email ∉ l₁ ∧
          unregister s activity_name email = .ok { s with activities := dictSet s.activities activity_name { a with participants := l₁ ++ l₂ } }) := by
  refine ⟨?_, ?_, ?_⟩
  · intro h
    simp [unregister, h]
  · intro a ha hmem
    simp [unregister, ha, hmem]
  · intro a ha hmem
    obtain ⟨l₁, l₂, hdec, hnot, hrem⟩ := removeFirst_decomp hmem
    refine ⟨l₁, l₂, hdec, hnot, ?_⟩
    simp only [unregister, ha, if_pos hmem]
    rw [hrem]

/-- C4 witness: on the concrete store, unregistering an unknown activity
gives NotFound, a non-participant gives Conflict, and a present email is
removed as the first occurrence with the rest kept in order. -/
theorem C4_unregister_witness :
    unregister wStore "B" "a@x" = .error .notFound
    ∧ unregister wStore "A" "c@x" = .error .conflict
    ∧ ∃ l₁ l₂, wAct.participants = l₁ ++ "a@x" :: l₂ ∧ "a@x" ∉ l₁ ∧
        unregister wStore "A" "a@x" = .ok { wStore with activities := dictSet wStore.activities "A" { wAct with participants := l₁ ++ l₂ } } :=
  ⟨(C4_unregister wStore "B" "a@x").1 (by decide),
   (C4_unregister wStore "A" "c@x").2.1 wAct (by decide) (by decide),
   (C4_unregister wStore "A" "a@x").2.2 wAct (by decide) (by decide)⟩

/-- C7: the handler body of `get_sorted_activities` does not reject a
`sort_by` outside {name, participants, score}: it succeeds and returns
the activities unsorted, in dictionary insertion order. This contradicts
the claimed InvalidArgument failure: FastAPI's `Query("name", enum=[...])`
passes `enum` to the documentation schema only and performs no
validation, so the out-of-enum request reaches the handler body and
returns HTTP 200. -/
theorem C7_invalid_sort_by (s : Store) (sort_by : String) (desc : Bool)
    (h₁ : sort_by ≠ "name") (h₂ : sort_by ≠ "participants") (h₃ : sort_by ≠ "score") :
    get_sorted_activities s sort_by desc = s.activities :=
  gsa_other s sort_by desc h₁ h₂ h₃

/-- C7 witness: `sort_by = "bogus"` on the seed store succeeds with the
seed insertion order. -/
theorem C7_invalid_sort_by_witness :
    get_sorted_activities seedStore "bogus" false = seedStore.activities :=
  C7_invalid_sort_by seedStore "bogus" false (by decide) (by decide) (by decide)

/-- C8: in every state reachable from the seed data by the exposed
operations, no email appears twice in any single activity's participant
sequence — the seed satisfies the invariant and each of the four mutators
preserves it (the read/query operations produce no new state). -/
theorem C8_nodup_invariant (s : Store) (h : Reachable s) : NoDupStore s := by
  induction h with
  | seed =>
    show ∀ p ∈ seedStore.activities, p.2.participants.Nodup
    decide
  | signup_step s s₂ n e _ hok ih => exact signup_preserves_nodup hok ih
  | unregister_step s s₂ n e _ hok ih => exact unregister_preserves_nodup hok ih
  | upload_step s s₂ n e f c sc _ hok ih => exact upload_preserves_nodup hok ih
  | verify_step s s₂ n e f _ hok ih => exact verify_preserves_nodup hok ih

/-- C8 witness: the seed store is reachable and satisfies the invariant. -/
theorem C8_nodup_invariant_witness : NoDupStore seedStore :=
  C8_nodup_invariant seedStore Reachable.seed

/-- C9: `verify_document` is idempotent — if a call succeeds, repeating
it with the same three arguments succeeds and returns exactly the same
store: the first matching record is found again (its email and filename
are unchanged) and re-marking `verified := true` is a no-op. -/
theorem C9_verify_idempotent (s s₂ : Store) (activity_name email filename : String)
    (h : verify_document s activity_name email filename = .ok s₂) :
    verify_document s₂ activity_name email filename = .ok s₂ := by
  cases hm : markFirst ((dictGet s.activity_documents activity_name).getD []) email filename with
  | none => simp [verify_document, hm] at h
  | some docs₂ =>
    simp only [verify_document, hm, Except.ok.injEq] at h
    subst h
    cases hd : dictGet s.activity_documents activity_name with
    | none =>
      rw [hd] at hm
      simp [markFirst] at hm
    | some docs₀ =>
      have hget : dictGet (dictSet s.activity_documents activity_name docs₂) activity_name
          = some docs₂ := dictGet_dictSet_self docs₂ hd
      obtain ⟨l₁, d, l₂, hdec, hnone, he, hf, hout⟩ := markFirst_eq_some hm
      have hmark₂ : markFirst docs₂ email filename = some docs₂ := by
        subst hout
        exact markFirst_first_match l₁ { d with verified := true } l₂ hnone he hf
      rw [verify_document]
      rw [show dictGet ({ s with activity_documents := dictSet s.activity_documents activity_name docs₂ } : Store).activity_documents activity_name = some docs₂ from hget]
      rw [show (some docs₂).getD ([] : List Document) = docs₂ from rfl]
      rw [hmark₂]
      simp [dictSet_dictSet]

/-- C9 witness: verifying the already-verified concrete store is a
no-op that succeeds. -/
theorem C9_verify_idempotent_witness :
    verify_document wStoreV "A" "a@x" "f1" = .ok wStoreV :=
  C9_verify_idempotent wStore wStoreV "A" "a@x" "f1" (by rfl)

/-- C10: for each enumerated `sort_by` and both directions,
`get_sorted_activities` returns a permutation of the activity store: each
(name, record) pair appears exactly once, with all its fields intact, and
nothing is omitted or duplicated. -/
theorem C10_sorted_permutation (s : Store) (desc : Bool) :
    List.Perm (get_sorted_activities s "name" desc) s.activities
    ∧ List.Perm (get_sorted_activities s "participants" desc) s.activities
    ∧ List.Perm (get_sorted_activities s "score" desc) s.activities :=
  ⟨by rw [gsa_name]; exact pySortKey_perm _ _ _,
   by rw [gsa_participants]; exact pySortKey_perm _ _ _,
   by rw [gsa_score]; exact pySortKey_perm _ _ _⟩

/-- C1: `get_sorted_activities` with `sort_by = "score"` orders the
activities by `avg_score` (ascending, flipped by `descending`) and keeps
every activity (the output is a permutation of the store, so an activity
with no verified documents is not excluded); `avg_score` is the mean over
the verified documents only, and is exactly `0` whenever the activity has
no verified document — including when it has no document entry at all. -/
theorem C1_score_sort (s : Store) (desc : Bool) (activity_name : String) :
    List.Perm (get_sorted_activities s "score" desc) s.activities
    ∧ (get_sorted_activities s "score" desc).Pairwise
        (fun a b => if desc then avg_score s b.1 ≤ avg_score s a.1
          else avg_score s a.1 ≤ avg_score s b.1)
    ∧ (((dictGet s.activity_documents activity_name).getD []).filter (fun d => d.verified) = []
        → avg_score s activity_name = 0)
    ∧ avg_score s activity_name =
        (if ((dictGet s.activity_documents activity_name).getD []).filter
              (fun d => d.verified) = [] then 0
         else (((((dictGet s.activity_documents activity_name).getD []).filter
              (fun d => d.verified)).map (fun d => d.score)).sum : ℚ)
            / ((((dictGet s.activity_documents activity_name).getD []).filter
              (fun d => d.verified)).length : ℚ)) := by
  refine ⟨?_, ?_, ?_, ?_⟩
  · rw [gsa_score]
    have h := pySortKey_perm (fun x => avg_score s x.1) desc s.activities
    exact h
  · rw [gsa_score]
    have h := pySortKey_pairwise (fun x => avg_score s x.1) desc s.activities
    exact h
  · intro h
    simp [avg_score, h]
  · by_cases hv : ((dictGet s.activity_documents activity_name).getD []).filter
        (fun d => d.verified) = []
    · simp [avg_score, hv]
    · simp [avg_score, hv]
      rfl

/-- C1 witness: on the concrete store whose three documents are all
unverified, the verified-filter is empty and the average is exactly 0. -/
theorem C1_score_sort_witness :
    ((dictGet wStore.activity_documents "A").getD []).filter (fun d => d.verified) = []
    ∧ avg_score wStore "A" = 0 :=
  ⟨by decide, (C1_score_sort wStore false "A").2.2.1 (by decide)⟩

/-- C2: `verify_document` marks exactly the first document, in insertion
order, of the activity's sequence whose email and filename both match,
leaving every document before it (non-matching), every document after it,
every other activity's documents and all participant lists unchanged; if
no matching document exists it fails with NotFound producing no new
state. The last conjunct shows the outcome never depends on the
`activities` dict, so all of this holds whether or not the activity name
exists there. -/
theorem C2_verify (s : Store) (activity_name email filename : String) :
    ((∀ d ∈ (dictGet s.activity_documents activity_name).getD [],
        ¬(d.email = email ∧ d.filename = filename)) →
      verify_document s activity_name email filename = .error .notFound)
    ∧ (∀ s₂, verify_document s activity_name email filename = .ok s₂ →
        s₂.activities = s.activities
        ∧ (∀ k, k ≠ activity_name →
            dictGet s₂.activity_documents k = dictGet s.activity_documents k)
        ∧ ∃ l₁ d l₂, (dictGet s.activity_documents activity_name).getD [] = l₁ ++ d :: l₂
            ∧ (∀ d₂ ∈ l₁, ¬(d₂.email = email ∧ d₂.filename = filename))
            ∧ d.email = email ∧ d.filename = filename
            ∧ dictGet s₂.activity_documents activity_name
                = some (l₁ ++ { d with verified := true } :: l₂))
    ∧ (∀ acts₂ : List (String × Activity),
        verify_document { activities := acts₂, activity_documents := s.activity_documents }
            activity_name email filename
          = Except.map (fun s₃ => { activities := acts₂, activity_documents := s₃.activity_documents })
              (verify_document s activity_name email filename)) := by
  refine ⟨?_, ?_, ?_⟩
  · intro hall
    have hm : markFirst ((dictGet s.activity_documents activity_name).getD [])
        email filename = none := markFirst_eq_none.mpr hall
    simp [verify_document, hm]
  · intro s₂ h
    cases hm : markFirst ((dictGet s.activity_documents activity_name).getD [])
        email filename with
    | none => simp [verify_document, hm] at h
    | some docs₂ =>
      simp only [verify_document, hm, Except.ok.injEq] at h
      subst h
      refine ⟨rfl, ?_, ?_⟩
      · intro k hk
        exact dictGet_dictSet_ne s.activity_documents activity_name k docs₂ hk
      · obtain ⟨l₁, d, l₂, hdec, hnone, he, hf, hout⟩ := markFirst_eq_some hm
        cases hd : dictGet s.activity_documents activity_name with
        | none =>
          rw [hd] at hdec
          simp at hdec
        | some docs₀ =>
          rw [hd] at hdec
          refine ⟨l₁, d, l₂, hdec, hnone, he, hf, ?_⟩
          rw [show dictGet ({ s with activity_documents := dictSet s.activity_documents activity_name docs₂ } : Store).activity_documents activity_name = some docs₂ from dictGet_dictSet_self docs₂ hd]
          rw [hout]
  · intro acts₂
    cases hm : markFirst ((dictGet s.activity_documents activity_name).getD [])
        email filename with
    | none => simp [verify_document, hm, Except.map]
    | some docs₂ => simp [verify_document, hm, Except.map]

/-- C2 witness: on the concrete store, verifying against an activity with
no document entry fails with NotFound; the successful call on activity
"A" leaves the participant store unchanged and marks only the first of
the two (a@x, f1) records. -/
theorem C2_verify_witness :
    verify_document wStore "B" "a@x" "f1" = .error .notFound
    ∧ wStoreV.activities = wStore.activities
    ∧ dictGet wStoreV.activity_documents "A"
        = some ([] ++ { wDoc1 with verified := true } :: [wDoc2, wDoc3]) :=
  ⟨(C2_verify wStore "B" "a@x" "f1").1 (by decide),
   ((C2_verify wStore "A" "a@x" "f1").2.1 wStoreV (by rfl)).1,
   by decide⟩

/-- C5: for an absent activity `get_sorted_participants` fails with
NotFound; for an existing activity it returns one row per participant
(a permutation of the roster-ordered `info` rows, whose emails are
exactly the roster), each row's score being the score of the first
verified matching document in insertion order, or `none` when that
participant has no verified document; with `sort_by = "score"` the rows
are ordered by the key `score.getD 0`, i.e. a `none` score compares
exactly as the value `0` — it is neither excluded nor sorted to an
extreme — while the row itself still carries `none`, distinguishable
from `some 0`. -/
theorem C5_sorted_participants (s : Store) (activity_name : String) (desc : Bool) :
    (dictGet s.activities activity_name = none →
      ∀ sort_by, get_sorted_participants s activity_name sort_by desc = .error .notFound)
    ∧ (∀ a, dictGet s.activities activity_name = some a →
        (participant_info s activity_name a).map (fun x => x.email) = a.participants
        ∧ (∀ sort_by, ∃ out, get_sorted_participants s activity_name sort_by desc = .ok out
            ∧ List.Perm out (participant_info s activity_name a))
        ∧ (∃ out, get_sorted_participants s activity_name "score" desc = .ok out
            ∧ out.Pairwise (fun x y => if desc then y.score.getD 0 ≤ x.score.getD 0
                else x.score.getD 0 ≤ y.score.getD 0))
        ∧ (∀ x ∈ participant_info s activity_name a,
            (x.score = none → ∀ d ∈ (dictGet s.activity_documents activity_name).getD [],
              d.email = x.email → d.verified = false)
            ∧ (∀ v : Int, x.score = some v → ∃ l₁ d l₂,
                (dictGet s.activity_documents activity_name).getD [] = l₁ ++ d :: l₂
                ∧ d.email = x.email ∧ d.verified = true ∧ d.score = v
                ∧ ∀ d₂ ∈ l₁, ¬(d₂.email = x.email ∧ d₂.verified = true)))) := by
  refine ⟨?_, ?_⟩
  · intro h sort_by
    exact gsp_absent s activity_name sort_by desc h
  · intro a ha
    refine ⟨?_, ?_, ?_, ?_⟩
    · rw [participant_info]
      generalize a.participants = l
      induction l with
      | nil => rfl
      | cons x t ih => simp [ih]
    · intro sort_by
      by_cases h₁ : sort_by = "name"
      · subst h₁
        exact ⟨_, gsp_name s activity_name desc a ha, pySortKey_perm _ _ _⟩
      · by_cases h₂ : sort_by = "score"
        · subst h₂
          exact ⟨_, gsp_score s activity_name desc a ha, pySortKey_perm _ _ _⟩
        · exact ⟨_, gsp_other s activity_name sort_by desc a ha h₁ h₂, List.Perm.refl _⟩
    · have h := pySortKey_pairwise (fun x => x.score.getD 0) desc (participant_info s activity_name a)
      exact ⟨_, gsp_score s activity_name desc a ha, h⟩
    · intro x hx
      rw [participant_info, List.mem_map] at hx
      obtain ⟨e, he, hfe⟩ := hx
      subst hfe
      refine ⟨?_, ?_⟩
      · intro hnone d hd hde
        exact firstVerifiedScore_eq_none.mp hnone d hd hde
      · intro v hv
        obtain ⟨l₁, d, l₂, hdec, hde, hver, hsc, hnm⟩ := firstVerifiedScore_eq_some hv
        exact ⟨l₁, d, l₂, hdec, hde, hver, hsc, hnm⟩

/-- C5 witness: on the concrete verified store, an unknown activity gives
NotFound, and the rows of the existing activity carry exactly the roster
emails in order. -/
theorem C5_sorted_participants_witness :
    get_sorted_participants wStoreV "B" "score" false = .error .notFound
    ∧ (participant_info wStoreV "A" wAct).map (fun x => x.email) = wAct.participants :=
  ⟨(C5_sorted_participants wStoreV "B" false).1 (by decide) "score",
   ((C5_sorted_participants wStoreV "A" false).2 wAct (by decide)).1⟩

/-- C6: both sorted views are stable with the `descending` flag applied
as a comparator-direction flip: for every sort key value, the entries
carrying that key appear in the output in exactly their original relative
order (their filtered subsequences coincide), for both values of
`descending` and for every sort mode. -/
theorem C6_stability (s : Store) (desc : Bool) :
    (∀ k : String, (get_sorted_activities s "name" desc).filter (fun x => decide (x.1 = k))
        = s.activities.filter (fun x => decide (x.1 = k)))
    ∧ (∀ n : Nat, (get_sorted_activities s "participants" desc).filter
          (fun x => decide (x.2.participants.length = n))
        = s.activities.filter (fun x => decide (x.2.participants.length = n)))
    ∧ (∀ q : ℚ, (get_sorted_activities s "score" desc).filter
          (fun x => decide (avg_score s x.1 = q))
        = s.activities.filter (fun x => decide (avg_score s x.1 = q)))
    ∧ (∀ activity_name a, dictGet s.activities activity_name = some a →
        (∀ out, get_sorted_participants s activity_name "name" desc = .ok out →
          ∀ k : String, out.filter (fun x => decide (x.email = k))
            = (participant_info s activity_name a).filter (fun x => decide (x.email = k)))
        ∧ (∀ out, get_sorted_participants s activity_name "score" desc = .ok out →
          ∀ z : Int, out.filter (fun x => decide (x.score.getD 0 = z))
            = (participant_info s activity_name a).filter
                (fun x => decide (x.score.getD 0 = z)))) := by
  refine ⟨?_, ?_, ?_, ?_⟩
  · intro k
    rw [gsa_name]
    have h := pySortKey_filter (fun x => x.1) desc k s.activities
    exact h
  · intro n
    rw [gsa_participants]
    have h := pySortKey_filter (fun x => x.2.participants.length) desc n s.activities
    exact h
  · intro q
    rw [gsa_score]
    have h := pySortKey_filter (fun x => avg_score s x.1) desc q s.activities
    exact h
  · intro activity_name a ha
    refine ⟨?_, ?_⟩
    · intro out hout k
      rw [gsp_name s activity_name desc a ha] at hout
      injection hout with hout
      subst hout
      have h := pySortKey_filter (fun x => x.email) desc k (participant_info s activity_name a)
      exact h
    · intro out hout z
      rw [gsp_score s activity_name desc a ha] at hout
      injection hout with hout
      subst hout
      have h := pySortKey_filter (fun x => x.score.getD 0) desc z
        (participant_info s activity_name a)
      exact h

/-- C6 witness: in the concrete participants view sorted descending by
score, the subsequence of rows with sort key 0 equals that of the
unsorted rows. -/
theorem C6_stability_witness :
    ∃ out, get_sorted_participants wStoreV "A" "score" true = .ok out
      ∧ out.filter (fun x => decide (x.score.getD 0 = 0))
        = (participant_info wStoreV "A" wAct).filter (fun x => decide (x.score.getD 0 = 0)) := by
  refine ⟨get_sorted_participants wStoreV "A" "score" true |>.toOption.getD [], ?_, ?_⟩
  · rfl
  · exact (((C6_stability wStoreV true).2.2.2 "A" wAct (by decide)).2 _ (by rfl) 0)

end Mergington
